import Mathlib

/-!
Verification of the distinction-engine core (`src/engine/distinction.py`).

The Python module defines a frozen dataclass `Distinction` (a single string
field `id`) and a class `DistinctionEngine` holding a dict
`all_distinctions : id → Distinction` and a set
`relationships : Set[Tuple[str, str]]`, with operations `__init__`,
`_add_relationship`, `synthesize` and `get_state_snapshot`.

We embed the module shallowly: the engine state is a structure, the dict is
an association list with Python-dict semantics, the set of relationship
tuples is a `Finset`, and the mutating methods are state-passing functions.
`hashlib.sha256(...).hexdigest()` is embedded by an executable SHA-256
implemented below over `Nat` words reduced mod 2^32.
-/

/-! ## SHA-256 over byte lists (embedding of `hashlib.sha256(s.encode()).hexdigest()`) -/

/-- Addition of 32-bit words, values kept as naturals below 2^32. -/
def add32 (x y : Nat) : Nat := (x + y) % 4294967296

/-- Right rotation of a 32-bit word by `n` places. -/
def rotr32 (n x : Nat) : Nat := ((x >>> n) ||| (x <<< (32 - n))) % 4294967296

/-- Bitwise complement of a 32-bit word. -/
def not32 (x : Nat) : Nat := Nat.xor x 4294967295

/-- UTF-8 encoding of a single character as a list of byte values,
mirroring Python `str.encode()`. -/
def utf8Char (c : Char) : List Nat :=
  let n := c.toNat
  if n < 128 then [n]
  else if n < 2048 then [192 ||| (n >>> 6), 128 ||| (n &&& 63)]
  else if n < 65536 then
    [224 ||| (n >>> 12), 128 ||| ((n >>> 6) &&& 63), 128 ||| (n &&& 63)]
  else
    [240 ||| (n >>> 18), 128 ||| ((n >>> 12) &&& 63),
     128 ||| ((n >>> 6) &&& 63), 128 ||| (n &&& 63)]

/-- UTF-8 encoding of a string as a list of byte values. -/
def utf8Bytes (s : String) : List Nat := (s.data.map utf8Char).flatten

/-- SHA-256 round constants. -/
def sha256K : List Nat :=
  [ 1116352408, 1899447441, 3049323471, 3921009573, 961987163, 1508970993,
   2453635748, 2870763221, 3624381080, 310598401, 607225278, 1426881987,
   1925078388, 2162078206, 2614888103, 3248222580, 3835390401, 4022224774,
   264347078, 604807628, 770255983, 1249150122, 1555081692, 1996064986,
   2554220882, 2821834349, 2952996808, 3210313671, 3336571891, 3584528711,
   113926993, 338241895, 666307205, 773529912, 1294757372, 1396182291,
   1695183700, 1986661051, 2177026350, 2456956037, 2730485921, 2820302411,
   3259730800, 3345764771, 3516065817, 3600352804, 4094571909, 275423344,
   430227734, 506948616, 659060556, 883997877, 958139571, 1322822218,
   1537002063, 1747873779, 1955562222, 2024104815, 2227730452, 2361852424,
   2428436474, 2756734187, 3204031479, 3329325298]

/-- SHA-256 initial hash state. -/
def sha256H0 : List Nat :=
  [1779033703, 3144134277, 1013904242, 2773480762,
   1359893119, 2600822924, 528734635, 1541459225]

/-- Pad a byte-list message per SHA-256: append 0x80, zeros, then the
64-bit big-endian bit length. -/
def sha256pad (msg : List Nat) : List Nat :=
  let L := msg.length
  let k := (119 - L % 64) % 64
  let lenBytes := (List.range 8).map (fun i => ((8 * L) >>> (8 * (7 - i))) % 256)
  msg ++ [128] ++ List.replicate k 0 ++ lenBytes

/-- Group a byte list into big-endian 32-bit words. -/
def bytesToWords : List Nat → List Nat
  | b0 :: b1 :: b2 :: b3 :: rest =>
      ((((b0 <<< 8) ||| b1) <<< 8 ||| b2) <<< 8 ||| b3) :: bytesToWords rest
  | _ => []

/-- Extend a 16-word block to the 64-word message schedule; `fuel` counts
the remaining extension steps. -/
def extendSchedule : Nat → List Nat → List Nat
  | 0, w => w
  | n + 1, w =>
    let i := w.length
    let x := w.getD (i - 15) 0
    let y := w.getD (i - 2) 0
    let s0 := Nat.xor (rotr32 7 x) (Nat.xor (rotr32 18 x) (x >>> 3))
    let s1 := Nat.xor (rotr32 17 y) (Nat.xor (rotr32 19 y) (y >>> 10))
    extendSchedule n (w ++ [add32 (w.getD (i - 16) 0) (add32 s0 (add32 (w.getD (i - 7) 0) s1))])

/-- One SHA-256 compression round on the eight working variables. -/
def sha256Round (vars : List Nat) (k w : Nat) : List Nat :=
  match vars with
  | [a, b, c, d, e, f, g, h] =>
    let S1 := Nat.xor (rotr32 6 e) (Nat.xor (rotr32 11 e) (rotr32 25 e))
    let ch := Nat.xor (e &&& f) ((not32 e) &&& g)
    let temp1 := add32 h (add32 S1 (add32 ch (add32 k w)))
    let S0 := Nat.xor (rotr32 2 a) (Nat.xor (rotr32 13 a) (rotr32 22 a))
    let maj := Nat.xor (a &&& b) (Nat.xor (a &&& c) (b &&& c))
    let temp2 := add32 S0 maj
    [add32 temp1 temp2, a, b, c, add32 d temp1, e, f, g]
  | other => other

/-- Process one 16-word chunk, updating the eight-word hash state. -/
def sha256Chunk (chunk H : List Nat) : List Nat :=
  let w := extendSchedule 48 chunk
  let vars := (sha256K.zip w).foldl (fun v kw => sha256Round v kw.1 kw.2) H
  List.zipWith add32 H vars

/-- Process successive 16-word chunks; `fuel` is the number of chunks. -/
def sha256Chunks : Nat → List Nat → List Nat → List Nat
  | 0, _, H => H
  | n + 1, ws, H => sha256Chunks n (ws.drop 16) (sha256Chunk (ws.take 16) H)

/-- Lowercase hexadecimal digit for a value below 16. -/
def hexDigit (n : Nat) : Char :=
  if n < 10 then Char.ofNat (48 + n) else Char.ofNat (87 + n)

/-- Render a 32-bit word as eight lowercase hex digits. -/
def wordToHex (w : Nat) : List Char :=
  (List.range 8).map (fun i => hexDigit ((w >>> (4 * (7 - i))) % 16))

/-- Lowercase hexadecimal SHA-256 digest of a string, the embedding of
Python `hashlib.sha256(s.encode()).hexdigest()`. -/
def sha256hex (s : String) : String :=
  let bytes := sha256pad (utf8Bytes s)
  let words := bytesToWords bytes
  let final := sha256Chunks (words.length / 16) words sha256H0
  ⟨(final.map wordToHex).flatten⟩

/-! ## The data model (`Distinction`, the dict and the engine state) -/

/-- Embedding of the frozen dataclass `Distinction`: identity is the sole
field; equality and hashing are by `id`. -/
structure Distinction where
  id : String
deriving DecidableEq, Repr

/-- Python-dict lookup `d.get(k)` on an association list kept in insertion
order. -/
def dictGet (d : List (String × Distinction)) (k : String) : Option Distinction :=
  (d.find? (fun p => p.1 = k)).map (fun p => p.2)

/-- Python-dict key-membership test `k in d`. -/
def dictHasKey (d : List (String × Distinction)) (k : String) : Bool :=
  d.any (fun p => p.1 = k)

/-- Python-dict assignment `d[k] = v`: overwrite in place when the key is
present, otherwise append (dicts preserve insertion order). -/
def dictInsert (d : List (String × Distinction)) (k : String) (v : Distinction) :
    List (String × Distinction) :=
  if dictHasKey d k then d.map (fun p => if p.1 = k then (k, v) else p)
  else d ++ [(k, v)]

/-- Lexicographic comparison of character lists by code point, structurally
recursive so that it evaluates by kernel reduction. -/
def charsLt : List Char → List Char → Bool
  | _, [] => false
  | [], _ :: _ => true
  | c :: cs, d :: ds =>
    if c.toNat < d.toNat then true
    else if d.toNat < c.toNat then false
    else charsLt cs ds

/-- Embedding of Python string comparison `a < b` on `str`: lexicographic
by code point. It agrees with the Lean `String` order (`pyLt_iff` below);
we use this executable form so that proofs can evaluate it. -/
def pyLt (s t : String) : Bool := charsLt s.data t.data

/-- Embedding of the mutable state of `DistinctionEngine`: the attributes
`d0`, `d1`, the dict `all_distinctions` and the set `relationships`.
Python `len` on the dict is the list length (keys stay unique under
`dictInsert`), and `len` on the set is `Finset.card`. -/
structure DistinctionEngine where
  d0 : Distinction
  d1 : Distinction
  all_distinctions : List (String × Distinction)
  relationships : Finset (String × String)
deriving DecidableEq

namespace DistinctionEngine

/-- Action of `_add_relationship` on the relationship set: store the tuple
in canonical order, smaller id first. -/
def addRel (r : Finset (String × String)) (id_a id_b : String) :
    Finset (String × String) :=
  if pyLt id_a id_b then insert (id_a, id_b) r else insert (id_b, id_a) r

/-- Embedding of `DistinctionEngine._add_relationship`. -/
def add_relationship (e : DistinctionEngine) (id_a id_b : String) :
    DistinctionEngine :=
  { e with relationships := addRel e.relationships id_a id_b }

/-- Embedding of `DistinctionEngine.__init__`: the primordial pair `"0"`,
`"1"`, both registered in the dict, and the single canonical relationship
between them. -/
def init : DistinctionEngine :=
  let d0 : Distinction := ⟨"0"⟩
  let d1 : Distinction := ⟨"1"⟩
  let e : DistinctionEngine :=
    { d0 := d0, d1 := d1,
      all_distinctions := [(d0.id, d0), (d1.id, d1)],
      relationships := ∅ }
  e.add_relationship d0.id d1.id

/-- The canonical string `new_id_str` computed inside `synthesize`:
`f"{a.id}:{b.id}" if a.id < b.id else f"{b.id}:{a.id}"` (the braces are
Python interpolation). -/
def new_id_str (a b : Distinction) : String :=
  if pyLt a.id b.id then a.id ++ ":" ++ b.id else b.id ++ ":" ++ a.id

/-- The id `new_id` computed inside `synthesize`:
`hashlib.sha256(new_id_str.encode()).hexdigest()`. -/
def new_id (a b : Distinction) : String := sha256hex (new_id_str a b)

/-- Embedding of `DistinctionEngine.synthesize`, state-passing: returns the
updated engine together with the returned distinction. -/
def synthesize (e : DistinctionEngine) (a b : Distinction) :
    DistinctionEngine × Distinction :=
  if a.id = b.id then (e, a)
  else
    match dictGet e.all_distinctions (new_id a b) with
    | some existing => (e, existing)
    | none =>
      let nd : Distinction := ⟨new_id a b⟩
      let e1 := { e with all_distinctions := dictInsert e.all_distinctions nd.id nd }
      let e2 := e1.add_relationship nd.id a.id
      let e3 := e2.add_relationship nd.id b.id
      (e3, nd)

/-- Value of the pair returned by `get_state_snapshot`: the set of dict
values together with the relationship set. At the value level the aliasing
of the second component is invisible; it is modelled separately below. -/
def get_state_snapshot (e : DistinctionEngine) :
    Finset Distinction × Finset (String × String) :=
  ((e.all_distinctions.map (fun p => p.2)).toFinset, e.relationships)

end DistinctionEngine

/-! ## Reference-level model of the snapshot's aliasing

Python sets are mutable heap objects. `set.add` mutates the object in
place, `set(xs)` allocates a fresh object, and returning `self.relationships`
returns a reference to the engine's own object. To settle the aliasing
claim we refine the embedding with an explicit heap of set objects: the
engine's `relationships` attribute becomes an address, `synthesize` writes
through that address, and `get_state_snapshot` returns a freshly built
entity set (from `set(self.all_distinctions.values())`) together with the
address of the engine's own relationship set (from `self.relationships`). -/

/-- A heap of Python `set` objects holding relationship tuples; an address
is an index into the cell list. -/
structure PyHeap where
  cells : List (Finset (String × String))
deriving DecidableEq

/-- Dereference an address. -/
def PyHeap.read (h : PyHeap) (a : Nat) : Finset (String × String) :=
  h.cells.getD a ∅

/-- Overwrite the object at an address. -/
def PyHeap.write (h : PyHeap) (a : Nat) (v : Finset (String × String)) : PyHeap :=
  ⟨h.cells.set a v⟩

/-- Allocate a fresh set object. -/
def PyHeap.alloc (h : PyHeap) (v : Finset (String × String)) : PyHeap × Nat :=
  (⟨h.cells ++ [v]⟩, h.cells.length)

/-- Engine state at the reference level: `relationships` is an address. -/
structure EngineRT where
  d0 : Distinction
  d1 : Distinction
  all_distinctions : List (String × Distinction)
  relAddr : Nat
deriving DecidableEq

/-- Read the reference-level state back as a value-level state. -/
def EngineRT.toVal (e : EngineRT) (h : PyHeap) : DistinctionEngine :=
  { d0 := e.d0, d1 := e.d1, all_distinctions := e.all_distinctions,
    relationships := h.read e.relAddr }

/-- Reference-level `__init__`: allocate the relationship set object, then
add the primordial relationship through the reference. -/
def initRT : EngineRT × PyHeap :=
  let p := PyHeap.alloc ⟨[]⟩ ∅
  let e : EngineRT :=
    { d0 := ⟨"0"⟩, d1 := ⟨"1"⟩,
      all_distinctions := [("0", ⟨"0"⟩), ("1", ⟨"1"⟩)], relAddr := p.2 }
  (e, p.1.write p.2 (DistinctionEngine.addRel (p.1.read p.2) "0" "1"))

/-- Reference-level `synthesize`: run the value-level step and write the
resulting relationship set back through the engine's address. -/
def synthesizeRT (e : EngineRT) (h : PyHeap) (a b : Distinction) :
    EngineRT × PyHeap × Distinction :=
  let r := DistinctionEngine.synthesize (e.toVal h) a b
  ({ d0 := r.1.d0, d1 := r.1.d1, all_distinctions := r.1.all_distinctions,
     relAddr := e.relAddr },
   h.write e.relAddr r.1.relationships, r.2)

/-- Reference-level `get_state_snapshot`: the first component is a freshly
built value (`set(...)` allocates), the second is the ADDRESS of the
engine's own relationship set object, returned without copying. -/
def snapshotRT (e : EngineRT) : Finset Distinction × Nat :=
  ((e.all_distinctions.map (fun p => p.2)).toFinset, e.relAddr)

/-! ## Invariant predicates and reachability -/

namespace DistinctionEngine

/-- Keys of the entity dict. -/
def keys (e : DistinctionEngine) : List String :=
  e.all_distinctions.map (fun p => p.1)

/-- Every dict entry maps a key to the distinction carrying that id; holds
in every state the engine builds, since entries are always stored under
`new_distinction.id`. -/
def KeyConsistent (e : DistinctionEngine) : Prop :=
  ∀ p ∈ e.all_distinctions, p.2.id = p.1

/-- Spec Invariant 1 (closure): both endpoints of every stored
relationship are keys of the entity dict. -/
def Closure (e : DistinctionEngine) : Prop :=
  ∀ p ∈ e.relationships, p.1 ∈ e.keys ∧ p.2 ∈ e.keys

/-- The canonically ordered tuple stored by `_add_relationship`. -/
def canonPair (x y : String) : String × String :=
  if pyLt x y then (x, y) else (y, x)

instance (e : DistinctionEngine) : Decidable e.KeyConsistent := by
  unfold KeyConsistent; infer_instance

instance (e : DistinctionEngine) : Decidable e.Closure := by
  unfold Closure; infer_instance

/-- States reachable from construction by arbitrary `synthesize` calls
(operands unconstrained, as at the public interface). -/
inductive Reachable : DistinctionEngine → Prop
  | base : Reachable init
  | step (e : DistinctionEngine) (a b : Distinction) :
      Reachable e → Reachable (synthesize e a b).1

/-- States reachable when every operand is a primordial entity or an
entity previously returned by the store; `obt` lists the distinctions the
caller has obtained so far. -/
inductive ReachableObt : DistinctionEngine → List Distinction → Prop
  | base : ReachableObt init [⟨"0"⟩, ⟨"1"⟩]
  | step (e : DistinctionEngine) (obt : List Distinction) (a b : Distinction) :
      a ∈ obt → b ∈ obt → ReachableObt e obt →
      ReachableObt (synthesize e a b).1 ((synthesize e a b).2 :: obt)

end DistinctionEngine

/-- Sanity check of the SHA-256 embedding against the FIPS 180-2 test
vector for the message "abc". -/
theorem sha256hex_abc : sha256hex "abc" =
    "ba7816bf8f01cfea414140de5dae2223b00361a396177a9cb410ff61f20015ad" := by
  decide

/-! ## The executable comparison agrees with the Lean String order -/

theorem charsLt_iff : ∀ s t : List Char, charsLt s t = true ↔ s < t := by
  intro s
  induction s with
  | nil =>
    intro t
    cases t with
    | nil =>
      constructor
      · intro h; simp [charsLt] at h
      · intro h; cases h
    | cons d ds =>
      constructor
      · intro _; exact List.Lex.nil
      · intro _; rfl
  | cons c cs ih =>
    intro t
    cases t with
    | nil =>
      constructor
      · intro h; simp [charsLt] at h
      · intro h; cases h
    | cons d ds =>
      show (if c.toNat < d.toNat then true
        else if d.toNat < c.toNat then false else charsLt cs ds) = true ↔ _
      by_cases h1 : c.toNat < d.toNat
      · rw [if_pos h1]
        constructor
        · intro _
          exact List.Lex.rel h1
        · intro _; rfl
      · rw [if_neg h1]
        by_cases h2 : d.toNat < c.toNat
        · rw [if_pos h2]
          constructor
          · intro h; simp at h
          · intro h
            cases h with
            | cons h => exact absurd h2 (Nat.lt_irrefl _)
            | rel h => exact absurd h h1
        · rw [if_neg h2]
          have hcd : c = d := by
            have hn : c.toNat = d.toNat := Nat.le_antisymm
              (Nat.le_of_not_lt h2) (Nat.le_of_not_lt h1)
            have hq := congrArg Char.ofNat hn
            rwa [Char.ofNat_toNat, Char.ofNat_toNat] at hq
          subst hcd
          constructor
          · intro h
            exact List.Lex.cons ((ih ds).mp h)
          · intro h
            cases h with
            | cons h => exact (ih ds).mpr h
            | rel h => exact absurd h h1

theorem pyLt_iff (s t : String) : pyLt s t = true ↔ s < t :=
  (charsLt_iff s.data t.data).trans String.lt_iff_toList_lt.symm

theorem pyLt_eq_false {s t : String} (h : ¬ s < t) : pyLt s t = false := by
  rw [← Bool.not_eq_true, pyLt_iff]
  exact h

/-! ## Helper lemmas about the dict and the relationship set -/

namespace DistinctionEngine

theorem dictGet_eq_none_iff {d : List (String × Distinction)} {k : String} :
    dictGet d k = none ↔ ∀ p ∈ d, p.1 ≠ k := by
  simp [dictGet, List.find?_eq_none]

theorem dictHasKey_eq_false_of_none {d : List (String × Distinction)} {k : String}
    (h : dictGet d k = none) : dictHasKey d k = false := by
  rw [dictGet_eq_none_iff] at h
  rw [dictHasKey, List.any_eq_false]
  simpa using h

theorem dictGet_append_self {d : List (String × Distinction)} {k : String}
    (v : Distinction) (h : dictGet d k = none) :
    dictGet (d ++ [(k, v)]) k = some v := by
  rw [dictGet] at h ⊢
  rw [Option.map_eq_none'] at h
  rw [List.find?_append, h]
  simp

theorem dictGet_some_mem {d : List (String × Distinction)} {k : String}
    {v : Distinction} (h : dictGet d k = some v) :
    ∃ p ∈ d, p.1 = k ∧ p.2 = v := by
  rw [dictGet] at h
  cases hf : d.find? (fun p => p.1 = k) with
  | none => rw [hf] at h; simp at h
  | some pr =>
    rw [hf] at h
    simp only [Option.map_some', Option.some.injEq] at h
    exact ⟨pr, List.mem_of_find?_eq_some hf, by simpa using List.find?_some hf, h⟩

theorem not_mem_keys_of_none {e : DistinctionEngine} {k : String}
    (h : dictGet e.all_distinctions k = none) : k ∉ e.keys := by
  rw [dictGet_eq_none_iff] at h
  rw [keys]
  simp only [List.mem_map]
  rintro ⟨p, hp, rfl⟩
  exact h p hp rfl

theorem addRel_eq_insert (r : Finset (String × String)) (x y : String) :
    addRel r x y = insert (canonPair x y) r := by
  rw [addRel, canonPair]
  split <;> rfl

theorem canonPair_le (x y : String) : (canonPair x y).1 ≤ (canonPair x y).2 := by
  rw [canonPair]
  by_cases h : pyLt x y
  · rw [if_pos h]
    exact le_of_lt ((pyLt_iff x y).mp h)
  · rw [if_neg h]
    exact le_of_not_lt (fun hlt => h ((pyLt_iff x y).mpr hlt))

theorem canonPair_cases (x y : String) :
    canonPair x y = (x, y) ∨ canonPair x y = (y, x) := by
  rw [canonPair]
  split
  · exact Or.inl rfl
  · exact Or.inr rfl

theorem canonPair_right_inj {c x y : String} (h : canonPair c x = canonPair c y) :
    x = y := by
  rw [canonPair, canonPair] at h
  split at h <;> split at h <;> injection h with h1 h2 <;> subst_vars <;> rfl

theorem canonPair_not_mem {e : DistinctionEngine} (hcl : e.Closure) {c x : String}
    (hc : c ∉ e.keys) : canonPair c x ∉ e.relationships := by
  intro hmem
  rcases canonPair_cases c x with hp | hp <;> rw [hp] at hmem
  · exact hc (hcl _ hmem).1
  · exact hc (hcl _ hmem).2

theorem addRel_comm (r : Finset (String × String)) (c x y : String) :
    addRel (addRel r c x) c y = addRel (addRel r c y) c x := by
  rw [addRel_eq_insert, addRel_eq_insert, addRel_eq_insert, addRel_eq_insert,
    Finset.Insert.comm]

/-! ## Structural lemmas about `synthesize` -/

theorem synthesize_self (e : DistinctionEngine) (a : Distinction) :
    synthesize e a a = (e, a) := by
  rw [synthesize]
  simp

theorem synthesize_of_get_some {e : DistinctionEngine} {a b ex : Distinction}
    (h : a.id ≠ b.id) (hg : dictGet e.all_distinctions (new_id a b) = some ex) :
    synthesize e a b = (e, ex) := by
  rw [synthesize, if_neg h, hg]

theorem synthesize_of_get_none {e : DistinctionEngine} {a b : Distinction}
    (h : a.id ≠ b.id) (hg : dictGet e.all_distinctions (new_id a b) = none) :
    synthesize e a b =
      ({ e with
          all_distinctions :=
            e.all_distinctions ++ [(new_id a b, ⟨new_id a b⟩)],
          relationships :=
            addRel (addRel e.relationships (new_id a b) a.id) (new_id a b) b.id },
        ⟨new_id a b⟩) := by
  rw [synthesize, if_neg h, hg]
  simp [dictInsert, dictHasKey_eq_false_of_none hg, add_relationship]

end DistinctionEngine

/-! ## Invariant preservation -/

namespace DistinctionEngine

theorem keys_def (e : DistinctionEngine) :
    e.keys = e.all_distinctions.map (fun p => p.1) := rfl

theorem eq_of_id_eq {a b : Distinction} (h : a.id = b.id) : a = b := by
  cases a; cases b; simpa using h

theorem mem_addRel {r : Finset (String × String)} {x y : String}
    {p : String × String} (hp : p ∈ addRel r x y) :
    p = (x, y) ∨ p = (y, x) ∨ p ∈ r := by
  rw [addRel_eq_insert, Finset.mem_insert] at hp
  rcases hp with rfl | hp
  · rcases canonPair_cases x y with hc | hc
    · exact Or.inl hc
    · exact Or.inr (Or.inl hc)
  · exact Or.inr (Or.inr hp)

theorem addRel_ordered {r : Finset (String × String)}
    (hr : ∀ p ∈ r, p.1 ≤ p.2) (x y : String) :
    ∀ p ∈ addRel r x y, p.1 ≤ p.2 := by
  intro p hp
  rw [addRel_eq_insert, Finset.mem_insert] at hp
  rcases hp with rfl | hp
  · exact canonPair_le x y
  · exact hr p hp

theorem init_relationships : init.relationships = {("0", "1")} := rfl

theorem init_all_distinctions :
    init.all_distinctions = [("0", ⟨"0"⟩), ("1", ⟨"1"⟩)] := rfl

theorem str01_lt : ("0" : String) < "1" := (pyLt_iff "0" "1").mp rfl

theorem reachable_relOrdered {e : DistinctionEngine} (h : Reachable e) :
    ∀ p ∈ e.relationships, p.1 ≤ p.2 := by
  induction h with
  | base =>
    intro p hp
    rw [init_relationships, Finset.mem_singleton] at hp
    subst hp
    exact le_of_lt str01_lt
  | step e a b _ ih =>
    by_cases hab : a.id = b.id
    · rw [eq_of_id_eq hab, synthesize_self]
      exact ih
    · cases hg : dictGet e.all_distinctions (new_id a b) with
      | some ex =>
        rw [synthesize_of_get_some hab hg]
        exact ih
      | none =>
        rw [synthesize_of_get_none hab hg]
        exact addRel_ordered (addRel_ordered ih (new_id a b) a.id) (new_id a b) b.id

theorem reachableObt_inv {e : DistinctionEngine} {obt : List Distinction}
    (h : ReachableObt e obt) :
    e.KeyConsistent ∧ (∀ d ∈ obt, d.id ∈ e.keys) ∧ e.Closure := by
  induction h with
  | base =>
    refine ⟨by decide, by decide, ?_⟩
    intro p hp
    rw [init_relationships, Finset.mem_singleton] at hp
    subst hp
    exact ⟨by decide, by decide⟩
  | step e obt a b ha hb hr ih =>
    obtain ⟨hk, hobt, hcl⟩ := ih
    by_cases hab : a.id = b.id
    · have hab2 : a = b := eq_of_id_eq hab
      subst hab2
      rw [synthesize_self]
      refine ⟨hk, ?_, hcl⟩
      intro d hd
      rcases List.mem_cons.mp hd with hd | hd
      · subst hd
        exact hobt _ ha
      · exact hobt d hd
    · cases hg : dictGet e.all_distinctions (new_id a b) with
      | some ex =>
        rw [synthesize_of_get_some hab hg]
        refine ⟨hk, ?_, hcl⟩
        intro d hd
        rcases List.mem_cons.mp hd with hd | hd
        · subst hd
          obtain ⟨p, hp, hpk, hpv⟩ := dictGet_some_mem hg
          rw [keys_def]
          refine List.mem_map.mpr ⟨p, hp, ?_⟩
          rw [← hpv]
          exact (hk p hp).symm
        · exact hobt d hd
      | none =>
        rw [synthesize_of_get_none hab hg]
        have hmono : ∀ k : String, k ∈ e.keys →
            k ∈ (e.all_distinctions ++
              [(new_id a b, (⟨new_id a b⟩ : Distinction))]).map
                (fun p => p.1) := by
          intro k hkm
          rw [List.map_append, List.mem_append]
          exact Or.inl hkm
        have hcmem : new_id a b ∈ (e.all_distinctions ++
            [(new_id a b, (⟨new_id a b⟩ : Distinction))]).map
              (fun p => p.1) := by
          rw [List.map_append, List.mem_append]
          right
          exact List.mem_singleton.mpr rfl
        refine ⟨?_, ?_, ?_⟩
        · intro p hp
          rcases List.mem_append.mp hp with hp | hp
          · exact hk p hp
          · rw [List.mem_singleton] at hp
            rw [hp]
        · intro d hd
          rcases List.mem_cons.mp hd with hd | hd
          · subst hd
            exact hcmem
          · exact hmono d.id (hobt d hd)
        · intro p hp
          rcases mem_addRel hp with hp | hp
          · rw [hp]
            exact ⟨hcmem, hmono b.id (hobt b hb)⟩
          rcases hp with hp | hp
          · rw [hp]
            exact ⟨hmono b.id (hobt b hb), hcmem⟩
          rcases mem_addRel hp with hp | hp
          · rw [hp]
            exact ⟨hcmem, hmono a.id (hobt a ha)⟩
          rcases hp with hp | hp
          · rw [hp]
            exact ⟨hmono a.id (hobt a ha), hcmem⟩
          · exact ⟨hmono p.1 (hcl p hp).1, hmono p.2 (hcl p hp).2⟩

end DistinctionEngine

/-! ## Further helper lemmas used by the claims -/

namespace DistinctionEngine

theorem new_id_str_minmax {a b : Distinction} (h : a.id ≠ b.id) :
    new_id_str a b = min a.id b.id ++ ":" ++ max a.id b.id := by
  rw [new_id_str]
  by_cases hpy : pyLt a.id b.id
  · have hlt := (pyLt_iff _ _).mp hpy
    rw [if_pos hpy, min_eq_left hlt.le, max_eq_right hlt.le]
  · have hlt : b.id < a.id := by
      rcases lt_trichotomy a.id b.id with hlt | heq | hgt
      · exact absurd ((pyLt_iff _ _).mpr hlt) hpy
      · exact absurd heq h
      · exact hgt
    rw [if_neg hpy, min_eq_right hlt.le, max_eq_left hlt.le]

theorem new_id_str_symm {a b : Distinction} (h : a.id ≠ b.id) :
    new_id_str a b = new_id_str b a := by
  rw [new_id_str_minmax h, new_id_str_minmax (Ne.symm h), min_comm, max_comm]

theorem synthesize_idem (e : DistinctionEngine) (a b : Distinction)
    (h : a.id ≠ b.id) :
    synthesize (synthesize e a b).1 a b = synthesize e a b := by
  cases hg : dictGet e.all_distinctions (new_id a b) with
  | some ex =>
    have h1 := synthesize_of_get_some h hg
    rw [h1]
    exact h1
  | none =>
    have h1 := synthesize_of_get_none h hg
    rw [h1]
    exact synthesize_of_get_some h (dictGet_append_self _ hg)

theorem mem_keys_append {d : List (String × Distinction)} {k c : String}
    {v : Distinction} :
    k ∈ (d ++ [(c, v)]).map (fun p => p.1) ↔
      k ∈ d.map (fun p => p.1) ∨ k = c := by
  rw [List.map_append, List.mem_append]
  simp

end DistinctionEngine

/-! ## The claims -/

open DistinctionEngine

/-- C1: for operands with distinct ids, the entity returned by `synthesize`
has id equal to the lowercase hex SHA-256 digest of the canonical string
`min(a.id, b.id) ++ ":" ++ max(a.id, b.id)` under lexicographic string
order. Stated for stores whose dict maps each key to the distinction
carrying that id, which holds in every state the engine constructs. -/
theorem claim_C1 (e : DistinctionEngine) (a b : Distinction)
    (hk : e.KeyConsistent) (h : a.id ≠ b.id) :
    ((synthesize e a b).2).id =
      sha256hex (min a.id b.id ++ ":" ++ max a.id b.id) := by
  have hstr : new_id a b =
      sha256hex (min a.id b.id ++ ":" ++ max a.id b.id) := by
    rw [new_id, new_id_str_minmax h]
  cases hg : dictGet e.all_distinctions (new_id a b) with
  | some ex =>
    rw [synthesize_of_get_some h hg]
    obtain ⟨p, hp, hpk, hpv⟩ := dictGet_some_mem hg
    show ex.id = _
    rw [← hpv, hk p hp, hpk, hstr]
  | none =>
    rw [synthesize_of_get_none h hg]
    show new_id a b = _
    rw [hstr]

/-- C1 witness: the hypotheses hold and the conclusion follows at the
fresh store with the primordial pair. -/
theorem claim_C1_witness :
    (DistinctionEngine.init.KeyConsistent ∧
      (⟨"0"⟩ : Distinction).id ≠ (⟨"1"⟩ : Distinction).id) ∧
    ((synthesize DistinctionEngine.init ⟨"0"⟩ ⟨"1"⟩).2).id =
      sha256hex (min (⟨"0"⟩ : Distinction).id (⟨"1"⟩ : Distinction).id ++
        ":" ++ max (⟨"0"⟩ : Distinction).id (⟨"1"⟩ : Distinction).id) :=
  ⟨⟨by decide, by decide⟩,
    claim_C1 DistinctionEngine.init ⟨"0"⟩ ⟨"1"⟩ (by decide) (by decide)⟩

/-- C2: synthesizing a distinction with itself returns it unchanged and
leaves the store state completely unchanged; in the embedding, as on
line 72 of the source, this guard is the first branch of `synthesize`,
taken before the id hash is computed. -/
theorem claim_C2 (e : DistinctionEngine) (a : Distinction) :
    synthesize e a a = (e, a) :=
  synthesize_self e a

/-- C3: for distinct operands, repeating the identical synthesize call
returns the same entity both times, and the entity-dict size and
relationship-set size after the second call equal those after the first. -/
theorem claim_C3 (e : DistinctionEngine) (a b : Distinction)
    (h : a.id ≠ b.id) :
    (synthesize (synthesize e a b).1 a b).2 = (synthesize e a b).2 ∧
    (synthesize (synthesize e a b).1 a b).1.all_distinctions.length =
      (synthesize e a b).1.all_distinctions.length ∧
    (synthesize (synthesize e a b).1 a b).1.relationships.card =
      (synthesize e a b).1.relationships.card := by
  rw [synthesize_idem e a b h]
  exact ⟨rfl, rfl, rfl⟩

/-- C3 witness at the fresh store with the primordial pair. -/
theorem claim_C3_witness :
    ((⟨"0"⟩ : Distinction).id ≠ (⟨"1"⟩ : Distinction).id) ∧
    ((synthesize (synthesize DistinctionEngine.init ⟨"0"⟩ ⟨"1"⟩).1
        ⟨"0"⟩ ⟨"1"⟩).2 =
      (synthesize DistinctionEngine.init ⟨"0"⟩ ⟨"1"⟩).2 ∧
    (synthesize (synthesize DistinctionEngine.init ⟨"0"⟩ ⟨"1"⟩).1
        ⟨"0"⟩ ⟨"1"⟩).1.all_distinctions.length =
      (synthesize DistinctionEngine.init ⟨"0"⟩ ⟨"1"⟩).1.all_distinctions.length ∧
    (synthesize (synthesize DistinctionEngine.init ⟨"0"⟩ ⟨"1"⟩).1
        ⟨"0"⟩ ⟨"1"⟩).1.relationships.card =
      (synthesize DistinctionEngine.init ⟨"0"⟩ ⟨"1"⟩).1.relationships.card) :=
  ⟨by decide, claim_C3 DistinctionEngine.init ⟨"0"⟩ ⟨"1"⟩ (by decide)⟩

/-- C4: for distinct operands the two argument orders compute the identical
canonical string, and from the same starting store the two calls return
identical results and leave identical states. -/
theorem claim_C4 (e : DistinctionEngine) (a b : Distinction)
    (h : a.id ≠ b.id) :
    new_id_str a b = new_id_str b a ∧
    synthesize e a b = synthesize e b a := by
  have hstr := new_id_str_symm h
  have hid : new_id a b = new_id b a := by rw [new_id, new_id, hstr]
  refine ⟨hstr, ?_⟩
  cases hg : dictGet e.all_distinctions (new_id a b) with
  | some ex =>
    rw [synthesize_of_get_some h hg,
        synthesize_of_get_some (Ne.symm h) (hid ▸ hg)]
  | none =>
    rw [synthesize_of_get_none h hg,
        synthesize_of_get_none (Ne.symm h) (hid ▸ hg), ← hid]
    have hcomm := addRel_comm e.relationships (new_id a b) a.id b.id
    rw [hcomm]

/-- C4 witness at the fresh store with the primordial pair. -/
theorem claim_C4_witness :
    ((⟨"0"⟩ : Distinction).id ≠ (⟨"1"⟩ : Distinction).id) ∧
    (new_id_str ⟨"0"⟩ ⟨"1"⟩ = new_id_str ⟨"1"⟩ ⟨"0"⟩ ∧
      synthesize DistinctionEngine.init ⟨"0"⟩ ⟨"1"⟩ =
        synthesize DistinctionEngine.init ⟨"1"⟩ ⟨"0"⟩) :=
  ⟨by decide, claim_C4 DistinctionEngine.init ⟨"0"⟩ ⟨"1"⟩ (by decide)⟩

/-- C5 is refuted at the reference level: for the snapshot taken on a
fresh engine, the relationship component returned by `get_state_snapshot`
is the engine's own mutable set object (`return ..., self.relationships`
on line 97 copies no set), so dereferencing the snapshot after a
subsequent `synthesize` call yields a different value than at snapshot
time: the claim that the snapshot's value is unchanged by the call fails.
The entity component, built by `set(self.all_distinctions.values())`, is a
fresh object. -/
theorem claim_C5_alias :
    PyHeap.read (synthesizeRT initRT.1 initRT.2 ⟨"0"⟩ ⟨"1"⟩).2.1
        (snapshotRT initRT.1).2 ≠
      PyHeap.read initRT.2 (snapshotRT initRT.1).2 := by decide

/-- C6: in every state reachable from construction by synthesize calls,
every stored relationship is canonically ordered (first endpoint ≤ second
under lexicographic order), and no unordered pair of ids is present in
both orientations. -/
theorem claim_C6 {e : DistinctionEngine} (h : Reachable e) :
    (∀ p ∈ e.relationships, p.1 ≤ p.2) ∧
    ∀ x y : String, (x, y) ∈ e.relationships →
      (y, x) ∈ e.relationships → x = y := by
  have hord := reachable_relOrdered h
  refine ⟨hord, fun x y hxy hyx => ?_⟩
  exact le_antisymm (hord (x, y) hxy) (hord (y, x) hyx)

/-- C6 witness at the fresh store, which is reachable. -/
theorem claim_C6_witness :
    Reachable DistinctionEngine.init ∧
    ((∀ p ∈ DistinctionEngine.init.relationships, p.1 ≤ p.2) ∧
     ∀ x y : String, (x, y) ∈ DistinctionEngine.init.relationships →
       (y, x) ∈ DistinctionEngine.init.relationships → x = y) :=
  ⟨Reachable.base, claim_C6 Reachable.base⟩

/-- C7: in every state reachable from construction by synthesize calls
whose operands are primordial entities or entities previously returned by
the store, both endpoints of every stored relationship are keys of the
entity dict (spec Invariant 1, closure). -/
theorem claim_C7 {e : DistinctionEngine} {obt : List Distinction}
    (h : ReachableObt e obt) : e.Closure :=
  (reachableObt_inv h).2.2

/-- C7 witness at the fresh store. -/
theorem claim_C7_witness :
    ReachableObt DistinctionEngine.init [⟨"0"⟩, ⟨"1"⟩] ∧
      DistinctionEngine.init.Closure :=
  ⟨ReachableObt.base, claim_C7 ReachableObt.base⟩

/-- C8: on a store satisfying closure where the canonical id of the pair is
not yet a key of the entity dict, synthesize of distinct operands grows
the entity dict by exactly one entry (the new distinction) and the
relationship set by exactly two elements (the canonical pairs joining the
new id with each operand id), and makes no other change. -/
theorem claim_C8 (e : DistinctionEngine) (a b : Distinction)
    (hcl : e.Closure) (h : a.id ≠ b.id)
    (hg : dictGet e.all_distinctions (new_id a b) = none) :
    (synthesize e a b).1.all_distinctions.length =
      e.all_distinctions.length + 1 ∧
    (synthesize e a b).1.relationships.card = e.relationships.card + 2 ∧
    (synthesize e a b).2 = ⟨new_id a b⟩ ∧
    (synthesize e a b).1.all_distinctions =
      e.all_distinctions ++ [(new_id a b, ⟨new_id a b⟩)] ∧
    (synthesize e a b).1.relationships =
      insert (canonPair (new_id a b) b.id)
        (insert (canonPair (new_id a b) a.id) e.relationships) := by
  have hnot := not_mem_keys_of_none hg
  have hp1 : canonPair (new_id a b) a.id ∉ e.relationships :=
    canonPair_not_mem hcl hnot
  have hp2 : canonPair (new_id a b) b.id ∉ e.relationships :=
    canonPair_not_mem hcl hnot
  have hne : canonPair (new_id a b) b.id ≠ canonPair (new_id a b) a.id :=
    fun hEq => h (canonPair_right_inj hEq).symm
  have hp2i : canonPair (new_id a b) b.id ∉
      insert (canonPair (new_id a b) a.id) e.relationships := by
    rw [Finset.mem_insert]
    rintro (hEq | hmem)
    · exact hne hEq
    · exact hp2 hmem
  rw [synthesize_of_get_none h hg]
  refine ⟨by simp, ?_, rfl, rfl,
    by rw [addRel_eq_insert, addRel_eq_insert]⟩
  show (addRel (addRel e.relationships (new_id a b) a.id)
      (new_id a b) b.id).card = _
  rw [addRel_eq_insert, addRel_eq_insert,
      Finset.card_insert_of_not_mem hp2i,
      Finset.card_insert_of_not_mem hp1]

/-- C8 witness at the fresh store with the primordial pair. -/
theorem claim_C8_witness :
    (DistinctionEngine.init.Closure ∧
      (⟨"0"⟩ : Distinction).id ≠ (⟨"1"⟩ : Distinction).id ∧
      dictGet DistinctionEngine.init.all_distinctions
        (new_id ⟨"0"⟩ ⟨"1"⟩) = none) ∧
    (synthesize DistinctionEngine.init ⟨"0"⟩ ⟨"1"⟩).1.all_distinctions.length =
      DistinctionEngine.init.all_distinctions.length + 1 ∧
    (synthesize DistinctionEngine.init ⟨"0"⟩ ⟨"1"⟩).1.relationships.card =
      DistinctionEngine.init.relationships.card + 2 ∧
    (synthesize DistinctionEngine.init ⟨"0"⟩ ⟨"1"⟩).2 =
      ⟨new_id ⟨"0"⟩ ⟨"1"⟩⟩ ∧
    (synthesize DistinctionEngine.init ⟨"0"⟩ ⟨"1"⟩).1.all_distinctions =
      DistinctionEngine.init.all_distinctions ++
        [(new_id ⟨"0"⟩ ⟨"1"⟩, ⟨new_id ⟨"0"⟩ ⟨"1"⟩⟩)] ∧
    (synthesize DistinctionEngine.init ⟨"0"⟩ ⟨"1"⟩).1.relationships =
      insert (canonPair (new_id ⟨"0"⟩ ⟨"1"⟩) (⟨"1"⟩ : Distinction).id)
        (insert (canonPair (new_id ⟨"0"⟩ ⟨"1"⟩) (⟨"0"⟩ : Distinction).id)
          DistinctionEngine.init.relationships) :=
  ⟨⟨by decide, by decide, by decide⟩,
    claim_C8 DistinctionEngine.init ⟨"0"⟩ ⟨"1"⟩
      (by decide) (by decide) (by decide)⟩

/-- C9: immediately after construction and before any synthesize call, the
snapshot is exactly the two primordial entities and the single canonical
relationship between them. -/
theorem claim_C9 :
    get_state_snapshot DistinctionEngine.init =
      ({⟨"0"⟩, ⟨"1"⟩}, {("0", "1")}) := by decide

/-- C10: synthesize performs no membership check on its operands: two
distinct operands whose ids are absent from the entity dict (and whose
canonical combined id is fresh and distinct from both operand ids) still
produce a registered entity and both canonical relationships, whose
operand endpoints are not keys of the dict, so the resulting state
violates closure. -/
theorem claim_C10 (e : DistinctionEngine) (a b : Distinction)
    (ha : a.id ∉ e.keys) (hb : b.id ∉ e.keys) (h : a.id ≠ b.id)
    (hg : dictGet e.all_distinctions (new_id a b) = none)
    (hca : new_id a b ≠ a.id) (hcb : new_id a b ≠ b.id) :
    new_id a b ∈ (synthesize e a b).1.keys ∧
    canonPair (new_id a b) a.id ∈ (synthesize e a b).1.relationships ∧
    canonPair (new_id a b) b.id ∈ (synthesize e a b).1.relationships ∧
    a.id ∉ (synthesize e a b).1.keys ∧
    b.id ∉ (synthesize e a b).1.keys ∧
    ¬ (synthesize e a b).1.Closure := by
  rw [synthesize_of_get_none h hg]
  have hmem1 : canonPair (new_id a b) a.id ∈
      addRel (addRel e.relationships (new_id a b) a.id) (new_id a b) b.id := by
    rw [addRel_eq_insert, addRel_eq_insert]
    exact Finset.mem_insert_of_mem (Finset.mem_insert_self _ _)
  have hmem2 : canonPair (new_id a b) b.id ∈
      addRel (addRel e.relationships (new_id a b) a.id) (new_id a b) b.id := by
    rw [addRel_eq_insert]
    exact Finset.mem_insert_self _ _
  have hka : a.id ∉ (e.all_distinctions ++
      [(new_id a b, (⟨new_id a b⟩ : Distinction))]).map (fun p => p.1) := by
    rw [mem_keys_append]
    rintro (hk | hk)
    · exact ha hk
    · exact hca hk.symm
  have hkb : b.id ∉ (e.all_distinctions ++
      [(new_id a b, (⟨new_id a b⟩ : Distinction))]).map (fun p => p.1) := by
    rw [mem_keys_append]
    rintro (hk | hk)
    · exact hb hk
    · exact hcb hk.symm
  refine ⟨mem_keys_append.mpr (Or.inr rfl), hmem1, hmem2, hka, hkb, ?_⟩
  intro hcl
  have h2 := hcl _ hmem1
  rcases canonPair_cases (new_id a b) a.id with hp | hp
  · rw [hp] at h2
    exact hka h2.2
  · rw [hp] at h2
    exact hka h2.1

/-- C10 witness: at the fresh store with two foreign distinctions. -/
theorem claim_C10_witness :
    ((⟨"x"⟩ : Distinction).id ∉ DistinctionEngine.init.keys ∧
      (⟨"y"⟩ : Distinction).id ∉ DistinctionEngine.init.keys ∧
      (⟨"x"⟩ : Distinction).id ≠ (⟨"y"⟩ : Distinction).id ∧
      dictGet DistinctionEngine.init.all_distinctions
        (new_id ⟨"x"⟩ ⟨"y"⟩) = none ∧
      new_id ⟨"x"⟩ ⟨"y"⟩ ≠ (⟨"x"⟩ : Distinction).id ∧
      new_id ⟨"x"⟩ ⟨"y"⟩ ≠ (⟨"y"⟩ : Distinction).id) ∧
    (new_id ⟨"x"⟩ ⟨"y"⟩ ∈
        (synthesize DistinctionEngine.init ⟨"x"⟩ ⟨"y"⟩).1.keys ∧
      canonPair (new_id ⟨"x"⟩ ⟨"y"⟩) (⟨"x"⟩ : Distinction).id ∈
        (synthesize DistinctionEngine.init ⟨"x"⟩ ⟨"y"⟩).1.relationships ∧
      canonPair (new_id ⟨"x"⟩ ⟨"y"⟩) (⟨"y"⟩ : Distinction).id ∈
        (synthesize DistinctionEngine.init ⟨"x"⟩ ⟨"y"⟩).1.relationships ∧
      (⟨"x"⟩ : Distinction).id ∉
        (synthesize DistinctionEngine.init ⟨"x"⟩ ⟨"y"⟩).1.keys ∧
      (⟨"y"⟩ : Distinction).id ∉
        (synthesize DistinctionEngine.init ⟨"x"⟩ ⟨"y"⟩).1.keys ∧
      ¬ (synthesize DistinctionEngine.init ⟨"x"⟩ ⟨"y"⟩).1.Closure) :=
  ⟨⟨by decide, by decide, by decide, by decide, by decide, by decide⟩,
    claim_C10 DistinctionEngine.init ⟨"x"⟩ ⟨"y"⟩
      (by decide) (by decide) (by decide) (by decide) (by decide) (by decide)⟩
